import Mathlib

/-!
Verification of the PROBIT repository: an inverse cumulative normal
(probit / quantile) engine with a rational initial approximation, Halley
polishing, an affine (mean, scale) transform, batch evaluation, and a
bisection-based reference solver used for benchmarking.

The numeric algorithms are embedded shallowly over the real numbers:
the C++ `double` arithmetic is idealised as exact real arithmetic, and the
library routines `erfc`, `exp`, `log`, `sqrt` are the corresponding exact
real functions (with `erfc` defined by its Gaussian integral).

`src/benchmark_comparison.cpp` supplies `baseline::Phi` and
`baseline::invert_bisect` directly.  The optimized engine lives in
`InverseCumulativeNormal.h`, which is not among the provided sources; its
model below is taken from the specification (the piecewise rational
initial approximation with breakpoints `p_low`/`p_high`, the Halley
update rule, the affine rescale, the batch loop and the construction
contract), with the standard Acklam coefficients the specification's
description matches.
-/

open Real Set MeasureTheory

noncomputable section

/-- Exact value of the source constant `INV_SQRT_2 = 0.7071067811865475…`
(`1/√2`, hard-coded as a decimal literal in `src/benchmark_comparison.cpp`
and `src/test_benchmark.cpp`). -/
def INV_SQRT_2 : ℝ := (Real.sqrt 2)⁻¹

/-- The complementary error function `erfc t = (2/√π) ∫_{t}^{∞} e^{-s²} ds`,
the exact function computed by the C library `erfc` the sources call. -/
def erfc (t : ℝ) : ℝ := 2 / Real.sqrt π * ∫ s in Set.Ioi t, Real.exp (-(s ^ 2))

/-- The standard normal CDF route used throughout the sources and mandated
by the spec (§4.2): `Φ(z) = 0.5 * erfc(-z/√2)`.  The identical formula
appears as `standard_normal_cdf` in `src/test_benchmark.cpp` and as
`baseline::Phi` in `src/benchmark_comparison.cpp`. -/
def Phi (z : ℝ) : ℝ := 0.5 * erfc (-z * INV_SQRT_2)

lemma integrableOn_gauss (s : Set ℝ) : IntegrableOn (fun x : ℝ => Real.exp (-(x ^ 2))) s := by
  have h : Integrable (fun x : ℝ => Real.exp (-1 * x ^ 2)) := integrable_exp_neg_mul_sq one_pos
  simpa using h.integrableOn

/-- Reflection identity for the Gaussian tail integral. -/
lemma erfc_add_erfc_neg (t : ℝ) : erfc t + erfc (-t) = 2 := by
  have hneg : (∫ s in Set.Ioi (-t), Real.exp (-(s ^ 2)))
      = ∫ s in Set.Iic t, Real.exp (-(s ^ 2)) := by
    have h := integral_comp_neg_Ioi (-t) (fun s : ℝ => Real.exp (-(s ^ 2)))
    simpa [neg_neg] using h
  have hsplit : (∫ s in Set.Iic t, Real.exp (-(s ^ 2)))
        + ∫ s in Set.Ioi t, Real.exp (-(s ^ 2))
      = ∫ s : ℝ, Real.exp (-(s ^ 2)) :=
    intervalIntegral.integral_Iic_add_Ioi (integrableOn_gauss _) (integrableOn_gauss _)
  have htotal : (∫ s : ℝ, Real.exp (-(s ^ 2))) = Real.sqrt π := by
    have h := integral_gaussian 1
    simpa using h
  have hpi : Real.sqrt π ≠ 0 := by
    positivity
  unfold erfc
  rw [hneg]
  field_simp
  linarith [hsplit, htotal]

/-- CDF reflection: `Φ(-z) = 1 - Φ(z)`. -/
lemma Phi_neg (z : ℝ) : Phi (-z) = 1 - Phi z := by
  unfold Phi
  have h := erfc_add_erfc_neg (-z * INV_SQRT_2)
  have hz : -(-z) * INV_SQRT_2 = -(-z * INV_SQRT_2) := by ring
  rw [hz]
  nlinarith [h]

/-- The CDF at the median: `Φ(0) = 1/2`. -/
lemma Phi_zero : Phi 0 = 1 / 2 := by
  have h := Phi_neg 0
  rw [neg_zero] at h
  linarith

/-- Exact value of the source constant `INV_SQRT_2PI = 0.3989422804014326…`
(`1/√(2π)`, hard-coded in `src/test_benchmark.cpp`). -/
def INV_SQRT_2PI : ℝ := (Real.sqrt (2 * π))⁻¹

/-- The standard normal density `φ(z) = exp(-z²/2)/√(2π)`, the derivative
feeding the Halley step (spec §4.2) and the derivative check in
`src/test_benchmark.cpp`. -/
def normal_pdf (z : ℝ) : ℝ := INV_SQRT_2PI * Real.exp (-0.5 * (z * z))

lemma normal_pdf_even (z : ℝ) : normal_pdf (-z) = normal_pdf z := by
  unfold normal_pdf
  ring_nf

lemma normal_pdf_pos (z : ℝ) : 0 < normal_pdf z := by
  unfold normal_pdf INV_SQRT_2PI
  have h2 : (0 : ℝ) < 2 * π := by positivity
  positivity

namespace quant

/-- Modelled from the spec: the lower breakpoint `p_low` of the piecewise
initial approximation (§4.1, "a typical choice is `p_low ≈ 0.02425`");
`InverseCumulativeNormal.h` is not among the provided sources. -/
def p_low : ℝ := 0.02425

/-- Modelled from the spec: the upper breakpoint `p_high = 1 - p_low`
(§4.1). -/
def p_high : ℝ := 1 - p_low

/-- Modelled from the spec: numerator of the central-region rational
function, `q` times an even polynomial in `r = q²` (§4.1), with the
standard Acklam central coefficients the spec's description matches. -/
def central_num (q r : ℝ) : ℝ :=
  (((((-39.69683028665376 * r + 220.9460984245205) * r + -275.9285104469687) * r
      + 138.3577518672690) * r + -30.66479806614716) * r + 2.506628277459239) * q

/-- Modelled from the spec: denominator of the central-region rational
function, a polynomial in `r = q²` alone (§4.1). -/
def central_den (r : ℝ) : ℝ :=
  ((((-54.47609879822406 * r + 161.5858368580409) * r + -155.6989798598866) * r
      + 66.80131188771972) * r + -13.28068155288572) * r + 1

/-- Modelled from the spec: numerator of the tail rational function in
`q = √(-2 ln x)` (§4.1), standard Acklam tail coefficients. -/
def tail_num (q : ℝ) : ℝ :=
  ((((-0.007784894002430293 * q + -0.3223964580411365) * q + -2.400758277161838) * q
      + -2.549732539343734) * q + 4.374664141464968) * q + 2.938163982698783

/-- Modelled from the spec: denominator of the tail rational function
(§4.1). -/
def tail_den (q : ℝ) : ℝ :=
  (((0.007784695709041462 * q + 0.3224671290700398) * q + 2.445134137142996) * q
      + 3.754408661907416) * q + 1

/-- Modelled from the spec: the `InitialApproximator` (§4.1).  Three-way
region split on `p_low`/`p_high`; lower tail uses `q = √(-2 ln x)`,
central region uses `q = x - 0.5`, `r = q²`, upper tail mirrors the
lower-tail formula at `1 - x` and negates the result. -/
def initial_approx (x : ℝ) : ℝ :=
  if x < p_low then
    tail_num (Real.sqrt (-2 * Real.log x)) / tail_den (Real.sqrt (-2 * Real.log x))
  else if x ≤ p_high then
    central_num (x - 0.5) ((x - 0.5) * (x - 0.5)) / central_den ((x - 0.5) * (x - 0.5))
  else
    -(tail_num (Real.sqrt (-2 * Real.log (1 - x)))
        / tail_den (Real.sqrt (-2 * Real.log (1 - x))))

/-- Modelled from the spec: one `HalleyRefiner` update (§4.2):
`e = Φ(z) - x`, `f = φ(z)`, `z' = z - e / (f * (1 + z*e/(2*f)))`. -/
def halley_step (x z : ℝ) : ℝ :=
  z - (Phi z - x) / (normal_pdf z * (1 + z * (Phi z - x) / (2 * normal_pdf z)))

/-- Modelled from the spec: the standard quantile `evaluate_standard`, the
initial approximation polished by the (fixed-count, §4.2) Halley
iteration; the spec notes one iteration reaches full precision. -/
def evaluate_standard (x : ℝ) : ℝ := halley_step x (initial_approx x)

/-- Modelled from the spec: the `QuantileEngine`'s immutable parameter
pair `(mean, scale)` (§3), the class `quant::InverseCumulativeNormal`
constructed in the example and test sources. -/
structure InverseCumulativeNormal where
  mean : ℝ
  scale : ℝ

/-- Modelled from the spec: scalar evaluation (§4.3),
`mean + scale * evaluate_standard x`. -/
def evaluate (e : InverseCumulativeNormal) (x : ℝ) : ℝ :=
  e.mean + e.scale * evaluate_standard x

/-- Modelled from the spec: `construct(mean, scale)` (§6/§7), failing with
a construction-time contract violation when `scale ≤ 0` and never
clamping. -/
def construct (mean scale : ℝ) : Except String InverseCumulativeNormal :=
  if scale ≤ 0 then Except.error "scale must be positive"
  else Except.ok ⟨mean, scale⟩

/-- Modelled from the spec: `evaluate_batch` (§4.3/§6), the elementwise
loop `outputs[i] = evaluate(engine, inputs[i])`. -/
def evaluate_batch (e : InverseCumulativeNormal) : List ℝ → List ℝ
  | [] => []
  | x :: rest => evaluate e x :: evaluate_batch e rest

end quant

namespace baseline

/-- `baseline::Phi` from `src/benchmark_comparison.cpp`:
`0.5 * erfc(-z * INV_SQRT_2)`. -/
def Phi (z : ℝ) : ℝ := 0.5 * erfc (-z * INV_SQRT_2)

/-- One iteration of the bisection loop body of `baseline::invert_bisect`
(`src/benchmark_comparison.cpp`): take the midpoint, keep the half whose
CDF values bracket `x`. -/
def bisect_step (x : ℝ) (p : ℝ × ℝ) : ℝ × ℝ :=
  let mid := 0.5 * (p.1 + p.2)
  if Phi mid < x then (mid, p.2) else (p.1, mid)

/-- `n` iterations of the bisection loop. -/
def bisect_iter (x : ℝ) : ℕ → ℝ × ℝ → ℝ × ℝ
  | 0, p => p
  | n + 1, p => bisect_iter x n (bisect_step x p)

/-- `baseline::invert_bisect` from `src/benchmark_comparison.cpp`: start
from `lo = -12, hi = 12`, clip to the half-interval containing the answer
(`hi = 0` when `x < 0.5`, else `lo = 0`), run exactly 80 bisection
iterations, and return the final midpoint. -/
def invert_bisect (x : ℝ) : ℝ :=
  let p0 : ℝ × ℝ := if x < 0.5 then (-12, 0) else (0, 12)
  let p := bisect_iter x 80 p0
  0.5 * (p.1 + p.2)

end baseline

namespace quant

lemma central_num_neg (q r : ℝ) : central_num (-q) r = -central_num q r := by
  unfold central_num
  ring

/-- Mirror symmetry of the initial approximation: for `x ≤ 1/2` the three
region branches pair up (`lower ↔ upper`, `central ↔ central`) and give
`initial_approx (1-x) = -(initial_approx x)`. -/
lemma initial_approx_reflect (x : ℝ) (hx : x ≤ 1 / 2) :
    initial_approx (1 - x) = -initial_approx x := by
  have hA : ¬(1 - x < p_low) := by
    unfold p_low
    push_neg
    linarith
  by_cases h : x < p_low
  · have hB : ¬(1 - x ≤ p_high) := by
      unfold p_high p_low at *
      push_neg
      linarith
    unfold initial_approx
    rw [if_neg hA, if_neg hB, if_pos h, show (1 : ℝ) - (1 - x) = x from by ring]
  · have hD : 1 - x ≤ p_high := by
      unfold p_high p_low at *
      push_neg at h
      linarith
    have hE : x ≤ p_high := by
      unfold p_high p_low
      linarith
    unfold initial_approx
    rw [if_neg hA, if_pos hD, if_neg h, if_pos hE]
    rw [show (1 : ℝ) - x - 0.5 = -(x - 0.5) from by ring,
      show -(x - 0.5) * -(x - 0.5) = (x - 0.5) * (x - 0.5) from by ring,
      central_num_neg, neg_div]

/-- Mirror symmetry of one Halley update: reflecting both the target
probability and the estimate negates the refined value. -/
lemma halley_step_reflect (x z : ℝ) : halley_step (1 - x) (-z) = -halley_step x z := by
  unfold halley_step
  rw [Phi_neg, normal_pdf_even]
  rw [show (1 : ℝ) - Phi z - (1 - x) = -(Phi z - x) from by ring]
  rw [show -z * -(Phi z - x) = z * (Phi z - x) from by ring]
  ring

/-- Exact mirror symmetry of the modelled standard quantile. -/
lemma evaluate_standard_reflect (x : ℝ) (hx : x ≤ 1 / 2) :
    evaluate_standard (1 - x) = -evaluate_standard x := by
  unfold evaluate_standard
  rw [initial_approx_reflect x hx, halley_step_reflect]

/-- The modelled standard quantile of the median is exactly zero. -/
lemma evaluate_standard_half : evaluate_standard (1 / 2) = 0 := by
  have h := evaluate_standard_reflect (1 / 2) le_rfl
  norm_num at h
  linarith

lemma evaluate_batch_eq_map (e : InverseCumulativeNormal) (xs : List ℝ) :
    evaluate_batch e xs = xs.map (evaluate e) := by
  induction xs with
  | nil => rfl
  | cons y ys ih => simp [evaluate_batch, ih]

lemma evaluate_batch_getD (e : InverseCumulativeNormal) :
    ∀ (xs : List ℝ) (i : ℕ), i < xs.length →
      (evaluate_batch e xs).getD i 0 = evaluate e (xs.getD i 0) := by
  intro xs
  induction xs with
  | nil =>
    intro i hi
    simp at hi
  | cons y ys ih =>
    intro i hi
    cases i with
    | zero => rfl
    | succ n =>
      have hn : n < ys.length := by
        simp only [List.length_cons] at hi
        omega
      exact ih n hn

end quant

namespace baseline

/-- One bisection step stays inside the current bracket and keeps it
ordered. -/
lemma bisect_step_bounds (x : ℝ) (p : ℝ × ℝ) (h : p.1 ≤ p.2) :
    p.1 ≤ (bisect_step x p).1 ∧ (bisect_step x p).1 ≤ (bisect_step x p).2 ∧
      (bisect_step x p).2 ≤ p.2 := by
  unfold bisect_step
  dsimp only
  split
  · exact ⟨by linarith, by linarith, le_refl _⟩
  · exact ⟨le_refl _, by linarith, by linarith⟩

/-- Any number of bisection steps stays inside the initial bracket. -/
lemma bisect_iter_bounds (x : ℝ) :
    ∀ (n : ℕ) (p : ℝ × ℝ), p.1 ≤ p.2 →
      p.1 ≤ (bisect_iter x n p).1 ∧ (bisect_iter x n p).1 ≤ (bisect_iter x n p).2 ∧
        (bisect_iter x n p).2 ≤ p.2 := by
  intro n
  induction n with
  | zero => exact fun p h => ⟨le_refl _, h, le_refl _⟩
  | succ n ih =>
    intro p h
    have hs := bisect_step_bounds x p h
    have hi := ih (bisect_step x p) hs.2.1
    simp only [bisect_iter]
    exact ⟨le_trans hs.1 hi.1, hi.2.1, le_trans hi.2.2 hs.2.2⟩

end baseline

/-- C4: for every `x` in `(0, 1/2]`, `evaluate_standard x` equals
`-(evaluate_standard (1-x))`.  In the real-arithmetic model the equality is
exact — the upper-tail branch is a mirrored computation of the lower-tail
branch and the central rational function is odd about `x = 1/2` — which in
particular meets the claimed ~1e-12 rounding bound. -/
theorem C4_symmetry (x : ℝ) (h0 : 0 < x) (h1 : x ≤ 1 / 2) :
    quant.evaluate_standard x = -quant.evaluate_standard (1 - x) := by
  have h := quant.evaluate_standard_reflect x h1
  have hpos := h0
  linarith

theorem C4_symmetry_witness :
    (0 : ℝ) < 1 / 4 ∧ (1 / 4 : ℝ) ≤ 1 / 2 ∧
      quant.evaluate_standard (1 / 4) = -quant.evaluate_standard (1 - 1 / 4) :=
  ⟨by norm_num, by norm_num, C4_symmetry (1 / 4) (by norm_num) (by norm_num)⟩

/-- C5: batch evaluation is elementwise scalar evaluation: the output list
is exactly the map of the scalar `evaluate` over the inputs, and each index
`i < n` of the output holds the scalar value of input `i` (exact equality
in the real model, the idealisation of bit-equality). -/
theorem C5_batch_equivalence (e : quant.InverseCumulativeNormal) (xs : List ℝ) :
    quant.evaluate_batch e xs = xs.map (quant.evaluate e) ∧
      ∀ i : ℕ, i < xs.length →
        (quant.evaluate_batch e xs).getD i 0 = quant.evaluate e (xs.getD i 0) :=
  ⟨quant.evaluate_batch_eq_map e xs, quant.evaluate_batch_getD e xs⟩

theorem C5_batch_equivalence_witness :
    quant.evaluate_batch ⟨0, 1⟩ [(0.5 : ℝ)] = [(0.5 : ℝ)].map (quant.evaluate ⟨0, 1⟩) ∧
      (quant.evaluate_batch ⟨0, 1⟩ [(0.5 : ℝ)]).getD 0 0
        = quant.evaluate ⟨0, 1⟩ (([(0.5 : ℝ)]).getD 0 0) :=
  ⟨(C5_batch_equivalence ⟨0, 1⟩ [(0.5 : ℝ)]).1,
    (C5_batch_equivalence ⟨0, 1⟩ [(0.5 : ℝ)]).2 0 (by simp)⟩

/-- C6: scalar evaluation is the affine transform
`mean + scale * evaluate_standard p` for every engine and probability, and
with `mean = 100`, `scale = 15` the median evaluates to exactly `100`. -/
theorem C6_affine_transform :
    quant.evaluate ⟨100, 15⟩ 0.5 = 100 ∧
      ∀ (e : quant.InverseCumulativeNormal) (p : ℝ),
        quant.evaluate e p = e.mean + e.scale * quant.evaluate_standard p := by
  constructor
  · show (100 : ℝ) + 15 * quant.evaluate_standard 0.5 = 100
    rw [show (0.5 : ℝ) = 1 / 2 from by norm_num, quant.evaluate_standard_half]
    ring
  · exact fun e p => rfl

/-- C8: `construct` rejects a non-positive scale with a construction-time
error (never clamping it), and for a positive scale succeeds with exactly
the given immutable parameter pair. -/
theorem C8_construct_contract (mean scale : ℝ) :
    (scale ≤ 0 → quant.construct mean scale = Except.error "scale must be positive") ∧
      (0 < scale → quant.construct mean scale = Except.ok ⟨mean, scale⟩) := by
  constructor
  · intro h
    unfold quant.construct
    rw [if_pos h]
  · intro h
    unfold quant.construct
    rw [if_neg (not_le.mpr h)]

theorem C8_construct_contract_witness :
    quant.construct 0 (-1) = Except.error "scale must be positive" ∧
      quant.construct 0 1 = Except.ok ⟨0, 1⟩ :=
  ⟨(C8_construct_contract 0 (-1)).1 (by norm_num),
    (C8_construct_contract 0 1).2 (by norm_num)⟩

/-- C10: `baseline::invert_bisect` runs exactly 80 bisection iterations
(first conjunct, definitional) and its result always lies in `[-12, 12]`;
it lies in `[-12, 0]` when `x < 0.5` and in `[0, 12]` otherwise, so the
reference never reports a quantile of magnitude above 12. -/
theorem C10_invert_bisect_range (x : ℝ) :
    baseline.invert_bisect x
        = 0.5 * ((baseline.bisect_iter x 80
              (if x < 0.5 then ((-12 : ℝ), (0 : ℝ)) else (0, 12))).1
            + (baseline.bisect_iter x 80
              (if x < 0.5 then ((-12 : ℝ), (0 : ℝ)) else (0, 12))).2) ∧
      |baseline.invert_bisect x| ≤ 12 ∧
      (x < 0.5 → -12 ≤ baseline.invert_bisect x ∧ baseline.invert_bisect x ≤ 0) ∧
      (¬x < 0.5 → 0 ≤ baseline.invert_bisect x ∧ baseline.invert_bisect x ≤ 12) := by
  by_cases hx : x < 0.5
  · obtain ⟨h1, h2, h3⟩ := baseline.bisect_iter_bounds x 80 ((-12 : ℝ), (0 : ℝ)) (by norm_num)
    have h1' : (-12 : ℝ) ≤ (baseline.bisect_iter x 80 ((-12 : ℝ), (0 : ℝ))).1 := h1
    have h3' : (baseline.bisect_iter x 80 ((-12 : ℝ), (0 : ℝ))).2 ≤ 0 := h3
    have he : baseline.invert_bisect x
        = 0.5 * ((baseline.bisect_iter x 80 ((-12 : ℝ), (0 : ℝ))).1
            + (baseline.bisect_iter x 80 ((-12 : ℝ), (0 : ℝ))).2) := by
      unfold baseline.invert_bisect
      rw [if_pos hx]
    refine ⟨rfl, ?_, fun _ => ⟨?_, ?_⟩, fun hc => absurd hx hc⟩
    · rw [he, abs_le]
      exact ⟨by linarith, by linarith⟩
    · rw [he]
      linarith
    · rw [he]
      linarith
  · obtain ⟨h1, h2, h3⟩ := baseline.bisect_iter_bounds x 80 ((0 : ℝ), (12 : ℝ)) (by norm_num)
    have h1' : (0 : ℝ) ≤ (baseline.bisect_iter x 80 ((0 : ℝ), (12 : ℝ))).1 := h1
    have h3' : (baseline.bisect_iter x 80 ((0 : ℝ), (12 : ℝ))).2 ≤ 12 := h3
    have he : baseline.invert_bisect x
        = 0.5 * ((baseline.bisect_iter x 80 ((0 : ℝ), (12 : ℝ))).1
            + (baseline.bisect_iter x 80 ((0 : ℝ), (12 : ℝ))).2) := by
      unfold baseline.invert_bisect
      rw [if_neg hx]
    refine ⟨rfl, ?_, fun hc => absurd hc hx, fun _ => ⟨?_, ?_⟩⟩
    · rw [he, abs_le]
      exact ⟨by linarith, by linarith⟩
    · rw [he]
      linarith
    · rw [he]
      linarith

theorem C10_invert_bisect_range_witness :
    (-12 ≤ baseline.invert_bisect 0 ∧ baseline.invert_bisect 0 ≤ 0) ∧
      (0 ≤ baseline.invert_bisect 1 ∧ baseline.invert_bisect 1 ≤ 12) :=
  ⟨(C10_invert_bisect_range 0).2.2.1 (by norm_num),
    (C10_invert_bisect_range 1).2.2.2 (by norm_num)⟩

end
